import Mathlib

/-!
# Verification of the NBA backend's event-driven recommendation lifecycle

Shallow embedding of the core of the `hogent_nba` repository:
the domain model (`src/nba_backend/domain/models.py`), the in-memory
stores (`src/nba_backend/adapters/inmemory/repositories.py`) and the
application services (`src/nba_backend/application/services.py`).

Modelling conventions:
* The three Python repository objects (`InMemoryNbaRepository`,
  `InMemoryNbaEventLogRepository`, `InMemoryProcessedEventRepository`)
  share one explicit state record `World`; every operation threads it.
* Python dicts keyed by record id are insertion-ordered lists; in every
  reachable state the ids are unique.  `dict[k] = v` is `dictInsert`:
  an in-place pointwise replacement when the key is present, an append
  otherwise.  Iterating `list(d.items())` while replacing values at
  existing keys is an in-place `List.map`.
* `uuid4`-generated ids are modelled by a fresh-id counter `next_id`
  shared by NBA records and event-log records (only equality of ids is
  ever used by the code).
* `datetime` is `PyDateTime`: a tick count plus an optional timezone
  offset in minutes (`none` = naive, `some 0` = UTC).  `datetime.now
  (timezone.utc)` reads a logical clock that advances monotonically;
  the several `utc_now()` calls inside one store operation are given
  one common tick, since no behaviour of the code depends on the exact
  tick values, only on the strict increase of `created_at` across
  operations.
* The opaque `context` dicts of payloads and NBA records are string
  association lists; event-log `context` values are the small closed
  set of shapes the code actually builds (`LogContext`).
* FastAPI `HTTPException`s raised by the services become `Except`
  errors (`ApiError`); `reference_data` is `None` in the application
  wiring (`main.py`), so the enrichment hook is absent.
-/

namespace NbaBackend

/-- `datetime`: a tick count and an optional tz offset in minutes
(`none` = naive, `some 0` = `timezone.utc`). -/
structure PyDateTime where
  ticks : Int
  tzoffset : Option Int
deriving Repr, DecidableEq

/-- Absolute time of a datetime, naive values read as UTC; the
comparison key used when sorting aware-UTC timestamps. -/
def PyDateTime.utcValue (d : PyDateTime) : Int :=
  d.ticks - 60 * d.tzoffset.getD 0

/-- `NBA_STATUS_NEW` (domain/models.py). -/
def NBA_STATUS_NEW : String := "new"

/-- `NBA_STATUS_ACCEPTED` (domain/models.py). -/
def NBA_STATUS_ACCEPTED : String := "accepted"

/-- `NBA_STATUS_REJECTED` (domain/models.py). -/
def NBA_STATUS_REJECTED : String := "rejected"

/-- `ACTION_STATUSES` (domain/models.py). -/
def ACTION_STATUSES : List String := [NBA_STATUS_ACCEPTED, NBA_STATUS_REJECTED]

/-- `NbaRecord` (domain/models.py). -/
structure NbaRecord where
  id : Nat
  nba_definition_id : String
  enterprise_number : Option String
  account_id : Option String
  contact_id : Option String
  active : Bool
  status : String
  priority : Int
  context : List (String × String)
  created_at : PyDateTime
  updated_at : PyDateTime
deriving Repr, DecidableEq

/-- The closed set of shapes of event-log `context` dicts built by the
code: `{}`, `{"comment": c}` (services.py line 129) and
`{"source": ..., "occurred_at": ...}` (services.py lines 214-217). -/
inductive LogContext where
  | empty
  | comment (c : String)
  | eventMeta (source : Option String) (occurred_at : Option String)
deriving Repr, DecidableEq

/-- `NbaEventLogRecord` (domain/models.py). -/
structure NbaEventLogRecord where
  id : Nat
  nba_id : Nat
  status : String
  context : LogContext
  acted_by : Option String
  action_at : PyDateTime
deriving Repr, DecidableEq

/-- The combined mutable state of the three in-memory repositories,
plus the fresh-id counter and the logical clock. -/
structure World where
  /-- `InMemoryNbaRepository._nbas`, as an insertion-ordered list. -/
  nbas : List NbaRecord
  /-- `InMemoryNbaRepository._event_to_nba_id`. -/
  event_to_nba_id : List (String × Nat)
  /-- `InMemoryNbaEventLogRepository._events`. -/
  events : List NbaEventLogRecord
  /-- `InMemoryProcessedEventRepository._processed`. -/
  processed : List String
  /-- Source of `uuid4`-fresh ids. -/
  next_id : Nat
  /-- Logical UTC clock backing `utc_now()`. -/
  clock : Int
deriving Repr, DecidableEq

/-- The state at application startup: all three stores empty. -/
def World.empty : World := ⟨[], [], [], [], 0, 0⟩

/-- `utc_now()` (domain/models.py): the current tick as an aware UTC
datetime; advances the clock. -/
def World.utc_now (w : World) : PyDateTime × World :=
  (⟨w.clock, some 0⟩, { w with clock := w.clock + 1 })

/-- Draw a fresh `uuid4`-style id. -/
def World.fresh_id (w : World) : Nat × World :=
  (w.next_id, { w with next_id := w.next_id + 1 })

/-- `self._nbas[r.id] = r` on the id-keyed dict: replace in place when
the key is present, append otherwise. -/
def dictInsert (m : List NbaRecord) (r : NbaRecord) : List NbaRecord :=
  if m.any (fun x => x.id == r.id) then
    m.map (fun x => if x.id == r.id then r else x)
  else m ++ [r]

/-- `_match_identifiers` (repositories.py lines 138-147). -/
def match_identifiers (nba : NbaRecord) (account_id enterprise_number : Option String) :
    Bool :=
  (account_id == none || nba.account_id == account_id) &&
  (enterprise_number == none || nba.enterprise_number == enterprise_number)

/-- The filter applied by `list_nbas` (repositories.py lines 24-30):
active records matching the optional identifier and status filters. -/
def listPred (account_id enterprise_number status : Option String) (nba : NbaRecord) :
    Bool :=
  nba.active && match_identifiers nba account_id enterprise_number &&
    (status == none || status == some nba.status)

/-- The comparison of `filtered.sort(key=lambda n: n.created_at,
reverse=True)`: descending by `created_at`; `mergeSort` with this
relation is the stable descending sort Python performs. -/
def listSortLe (a b : NbaRecord) : Bool :=
  b.created_at.utcValue ≤ a.created_at.utcValue

/-- `InMemoryNbaRepository.list_nbas` (repositories.py lines 15-33). -/
def World.list_nbas (w : World) (account_id enterprise_number status : Option String)
    (limit offset : Nat) : List NbaRecord × Nat :=
  let filtered := w.nbas.filter (listPred account_id enterprise_number status)
  let sorted := filtered.mergeSort listSortLe
  ((sorted.drop offset).take limit, sorted.length)

/-- `InMemoryNbaRepository.get_nba` (repositories.py lines 35-36). -/
def World.get_nba (w : World) (nba_id : Nat) : Option NbaRecord :=
  w.nbas.find? (fun r => r.id == nba_id)

/-- `InMemoryNbaRepository.upsert_from_calculation_event`
(repositories.py lines 38-62). -/
def World.upsert_from_calculation_event (w : World) (event_id : String)
    (nba_definition_id : String) (enterprise_number account_id contact_id : Option String)
    (context : List (String × String)) : Option NbaRecord × World :=
  match w.event_to_nba_id.lookup event_id with
  | some nba_id => (w.get_nba nba_id, w)
  | none =>
    let (now, w) := w.utc_now
    let (nid, w) := w.fresh_id
    let nba : NbaRecord :=
      { id := nid, nba_definition_id := nba_definition_id,
        enterprise_number := enterprise_number, account_id := account_id,
        contact_id := contact_id, active := true, status := NBA_STATUS_NEW,
        priority := 0, context := context, created_at := now, updated_at := now }
    (some nba,
     { w with nbas := dictInsert w.nbas nba,
              event_to_nba_id := w.event_to_nba_id ++ [(event_id, nid)] })

/-- `InMemoryNbaRepository.update_status` (repositories.py lines 64-68);
`none` models the `KeyError` on an absent id. -/
def World.update_status (w : World) (nba_id : Nat) (status : String) :
    Option NbaRecord × World :=
  match w.nbas.find? (fun r => r.id == nba_id) with
  | none => (none, w)
  | some existing =>
    let (now, w) := w.utc_now
    let updated := { existing with status := status, updated_at := now }
    (some updated, { w with nbas := dictInsert w.nbas updated })

/-- The exact-scope condition of `deactivate_other_active_new_for_scope`
(repositories.py lines 80-92): another id, active, status new, and the
full (definition, enterprise, account, contact) tuple equal —
`none` equal only to `none`. -/
def scopeMatch (keep_nba_id : Nat) (nba_definition_id : String)
    (enterprise_number account_id contact_id : Option String) (r : NbaRecord) : Bool :=
  r.id != keep_nba_id && r.active && r.status == NBA_STATUS_NEW &&
  r.nba_definition_id == nba_definition_id &&
  r.enterprise_number == enterprise_number &&
  r.account_id == account_id && r.contact_id == contact_id

/-- `InMemoryNbaRepository.deactivate_other_active_new_for_scope`
(repositories.py lines 70-96): iterate the id-keyed dict, replacing
every scope-matching entry by its deactivated copy — an in-place map. -/
def World.deactivate_other_active_new_for_scope (w : World) (keep_nba_id : Nat)
    (nba_definition_id : String)
    (enterprise_number account_id contact_id : Option String) : Nat × World :=
  let p := scopeMatch keep_nba_id nba_definition_id enterprise_number account_id contact_id
  let (now, w') := w.utc_now
  (w.nbas.countP p,
   { w' with nbas :=
      w.nbas.map (fun r => if p r then { r with active := false, updated_at := now } else r) })

/-- `dict.fromkeys(nba_ids)`: deduplication keeping the first
occurrence of each id, in order. -/
def dedupFirst (ids : List Nat) : List Nat :=
  ids.foldl (fun acc i => if acc.contains i then acc else acc ++ [i]) []

/-- One iteration of the loop in `deactivate_nbas_by_ids`
(repositories.py lines 100-105): look the id up, skip it when missing
or inactive, otherwise store the deactivated copy. -/
def deactStep (now : PyDateTime) (acc : Nat × World) (nid : Nat) : Nat × World :=
  match acc.2.nbas.find? (fun r => r.id == nid) with
  | none => acc
  | some existing =>
    if existing.active then
      (acc.1 + 1,
       { acc.2 with nbas :=
          dictInsert acc.2.nbas { existing with active := false, updated_at := now } })
    else acc

/-- `InMemoryNbaRepository.deactivate_nbas_by_ids`
(repositories.py lines 98-106). -/
def World.deactivate_nbas_by_ids (w : World) (nba_ids : List Nat) : Nat × World :=
  let (now, w) := w.utc_now
  (dedupFirst nba_ids).foldl (deactStep now) (0, w)

/-- Python truthiness of an optional string (`if event.acted_by`):
`None` and the empty string are falsy. -/
def pyTruthy (s : Option String) : Bool :=
  match s with
  | some v => v != ""
  | none => false

/-- `InMemoryNbaEventLogRepository.add` (repositories.py lines 113-115). -/
def World.add_event (w : World) (e : NbaEventLogRecord) : NbaEventLogRecord × World :=
  (e, { w with events := w.events ++ [e] })

/-- `InMemoryNbaEventLogRepository.find_action_event`
(repositories.py lines 120-124): the first entry with this `nba_id`,
this `status` and a truthy `acted_by`. -/
def World.find_action_event (w : World) (nba_id : Nat) (status : String) :
    Option NbaEventLogRecord :=
  w.events.find? (fun e => e.nba_id == nba_id && e.status == status && pyTruthy e.acted_by)

/-- `InMemoryProcessedEventRepository.is_processed`
(repositories.py lines 131-132). -/
def World.is_processed (w : World) (event_id : String) : Bool :=
  w.processed.contains event_id

/-- `InMemoryProcessedEventRepository.mark_processed`
(repositories.py lines 134-135): set insertion. -/
def World.mark_processed (w : World) (event_id : String) : World :=
  if w.processed.contains event_id then w
  else { w with processed := w.processed ++ [event_id] }

/-- The error taxonomy of the services (`HTTPException` status codes
400 / 404 / 409 in services.py). -/
inductive ApiError where
  | validation
  | notFound
  | conflict
deriving Repr, DecidableEq

/-- `{"comment": comment} if comment else {}` (services.py line 129):
Python truthiness, so `None` and the empty string both give `{}`. -/
def commentContext (comment : Option String) : LogContext :=
  match comment with
  | some c => if c == "" then .empty else .comment c
  | none => .empty

/-- `NbaActionService.register_action` (services.py lines 85-133).
The access-policy hook is the identity (services.py lines 27-40). -/
def register_action (w : World) (nba_id : Nat) (status_value : String)
    (action_at : Option PyDateTime) (comment : Option String) (username : String) :
    Except ApiError NbaEventLogRecord × World :=
  if ¬ (ACTION_STATUSES.contains status_value) then (.error .validation, w)
  else
    match w.get_nba nba_id with
    | none => (.error .notFound, w)
    | some nba =>
      if nba.status == NBA_STATUS_ACCEPTED || nba.status == NBA_STATUS_REJECTED then
        if nba.status == status_value then
          match w.find_action_event nba_id status_value with
          | some existing => (.ok existing, w)
          | none => (.error .conflict, w)
        else (.error .conflict, w)
      else
        let fa :=
          match action_at with
          | some d => (d, w)
          | none => w.utc_now
        let final_action_at :=
          if fa.1.tzoffset == none then { fa.1 with tzoffset := some 0 } else fa.1
        let wu := (fa.2.update_status nba_id status_value).2
        let wf := wu.fresh_id
        let event : NbaEventLogRecord :=
          { id := wf.1, nba_id := nba_id, status := status_value,
            context := commentContext comment, acted_by := some username,
            action_at := final_action_at }
        (.ok (wf.2.add_event event).1, (wf.2.add_event event).2)

/-- A calculation event payload as the processor reads it
(services.py lines 149-158): `event_id` and `nba_definition_id` are
required by the transport schema, `create_nba` defaults to true,
`deactivate_nba_ids` to the empty list. -/
structure CalcPayload where
  event_id : String
  nba_definition_id : String
  enterprise_number : Option String
  account_id : Option String
  contact_id : Option String
  create_nba : Bool
  deactivate_nba_ids : List Nat
  context : List (String × String)
  source : Option String
  occurred_at : Option String
deriving Repr, DecidableEq

/-- The `action` field of the processor's result dict. -/
inductive CalcAction where
  | duplicate_skipped
  | deactivated_only
  | created
deriving Repr, DecidableEq

/-- The processor's result dict: `nba_id` is `none` for `"n/a"`. -/
structure CalcResult where
  action : CalcAction
  nba_id : Option Nat
deriving Repr, DecidableEq

/-- `CalculationEventService.process` (services.py lines 149-223);
`reference_data` is `None` in the application wiring (main.py), so the
enrichment step is absent. -/
def process (w : World) (payload : CalcPayload) : CalcResult × World :=
  if w.is_processed payload.event_id then (⟨.duplicate_skipped, none⟩, w)
  else
    let w :=
      if payload.deactivate_nba_ids.isEmpty then w
      else (w.deactivate_nbas_by_ids payload.deactivate_nba_ids).2
    if ¬ payload.create_nba then
      (⟨.deactivated_only, none⟩, w.mark_processed payload.event_id)
    else
      let up := w.upsert_from_calculation_event payload.event_id
        payload.nba_definition_id payload.enterprise_number payload.account_id
        payload.contact_id payload.context
      let w :=
        match up.1 with
        | some nba =>
          let wd := (up.2.deactivate_other_active_new_for_scope nba.id
            nba.nba_definition_id nba.enterprise_number nba.account_id nba.contact_id).2
          let wn := wd.utc_now
          let wf := wn.2.fresh_id
          (wf.2.add_event
            { id := wf.1, nba_id := nba.id, status := NBA_STATUS_NEW,
              context := .eventMeta payload.source payload.occurred_at,
              acted_by := none, action_at := wn.1 }).2
        | none => up.2
      (⟨.created, up.1.map (fun r => r.id)⟩, w.mark_processed payload.event_id)

/-- The single queue consumer (main.py `queue_worker`): events are
processed serially, in order. -/
def processAll (w : World) (ps : List CalcPayload) : World :=
  ps.foldl (fun w p => (process w p).2) w

/-- Well-formedness of the NBA store: record ids are pairwise distinct
and below the fresh-id counter.  Holds for every state reachable from
`World.empty`. -/
def World.WF (w : World) : Prop :=
  (w.nbas.map (fun r => r.id)).Nodup ∧ ∀ r ∈ w.nbas, r.id < w.next_id

/-- Exact equality of a record's scope tuple with the given one:
`none` equals only `none`. -/
def scopeEq (r : NbaRecord) (d : String) (en ac co : Option String) : Bool :=
  r.nba_definition_id == d && r.enterprise_number == en &&
  r.account_id == ac && r.contact_id == co

/-- A record counts against the scope-exclusivity bound of tuple
`(d, en, ac, co)`: active, status `new`, exact scope match. -/
def activeNewPred (d : String) (en ac co : Option String) (r : NbaRecord) : Bool :=
  r.active && r.status == NBA_STATUS_NEW && scopeEq r d en ac co

/-- Number of NBA records that are active, have status `new`, and
carry exactly the given scope tuple. -/
def activeNewScopeCount (w : World) (d : String) (en ac co : Option String) : Nat :=
  w.nbas.countP (activeNewPred d en ac co)

/-- The per-scope exclusivity invariant: at most one active `new`
record per exact scope tuple. -/
def ScopeExclusive (w : World) : Prop :=
  ∀ d en ac co, activeNewScopeCount w d en ac co ≤ 1

/-- The pointwise effect of `deactivate_nbas_by_ids` on one stored
record: deactivated when listed and active, untouched otherwise. -/
def dIf (ids : List Nat) (now : PyDateTime) (r : NbaRecord) : NbaRecord :=
  if r.active && ids.contains r.id then { r with active := false, updated_at := now }
  else r

/-- The record built by the creation branch of
`upsert_from_calculation_event` at state `w`. -/
def freshNba (w : World) (d : String) (en ac co : Option String)
    (ctx : List (String × String)) : NbaRecord :=
  { id := w.next_id, nba_definition_id := d, enterprise_number := en, account_id := ac,
    contact_id := co, active := true, status := NBA_STATUS_NEW, priority := 0,
    context := ctx, created_at := ⟨w.clock, some 0⟩, updated_at := ⟨w.clock, some 0⟩ }

/-- The full invariant carried through event processing. -/
def Inv (w : World) : Prop := w.WF ∧ ScopeExclusive w

/-! ### Concrete fixtures for instance checks -/

/-- A stored record with the given id, activity, status and creation
tick, in a fixed scope. -/
def sampleRec (i : Nat) (act : Bool) (st : String) (tick : Int) : NbaRecord :=
  { id := i, nba_definition_id := "defn-1", enterprise_number := some "ent-1",
    account_id := some "acc-1", contact_id := none, active := act, status := st,
    priority := 0, context := [], created_at := ⟨tick, some 0⟩,
    updated_at := ⟨tick, some 0⟩ }

/-- A store holding one `new` record with id 0. -/
def wNew : World := ⟨[sampleRec 0 true NBA_STATUS_NEW 0], [], [], [], 1, 1⟩

/-- A store holding one already-`accepted` record with id 0 and an
empty event log. -/
def wAccepted : World := ⟨[sampleRec 0 true NBA_STATUS_ACCEPTED 0], [], [], [], 1, 1⟩

/-- A store with an active record 0, an inactive record 1 and an
active record 2. -/
def wDeact : World :=
  ⟨[sampleRec 0 true NBA_STATUS_NEW 0, sampleRec 1 false NBA_STATUS_NEW 0,
    sampleRec 2 true NBA_STATUS_NEW 0], [], [], [], 3, 1⟩

/-- A deactivate-only event naming record 0 twice, the missing id 5,
and not naming record 2. -/
def deactPayload : CalcPayload :=
  ⟨"evt-d", "defn-1", some "ent-1", none, none, false, [0, 5, 0], [], some "calc", none⟩

/-- A create event in a fixed scope. -/
def scopePayloadA : CalcPayload :=
  ⟨"evt-a", "defn-1", some "ent-1", some "acc-1", none, true, [], [], some "calc", none⟩

/-- A second create event with the same scope tuple but a different
event id. -/
def scopePayloadB : CalcPayload :=
  ⟨"evt-b", "defn-1", some "ent-1", some "acc-1", none, true, [], [], some "calc", none⟩

/-- Ten active `new` records in one account scope, created at ticks
0 through 9 (record `i` is the `(10 - i)`-th newest). -/
def wTen : World :=
  ⟨(List.range 10).map (fun i => sampleRec i true NBA_STATUS_NEW (i : Int)),
   [], [], [], 10, 10⟩

/-! ## Ground facts about the store primitives -/

lemma dictInsert_of_fresh (m : List NbaRecord) (r : NbaRecord)
    (h : m.any (fun x => x.id == r.id) = false) : dictInsert m r = m ++ [r] := by
  simp [dictInsert, h]

lemma dictInsert_of_mem (m : List NbaRecord) (r : NbaRecord)
    (h : m.any (fun x => x.id == r.id) = true) :
    dictInsert m r = m.map (fun x => if x.id == r.id then r else x) := by
  simp [dictInsert, h]

/-- Replacing an existing key's value leaves the dict's key list
unchanged. -/
lemma map_id_dictInsert_replace (m : List NbaRecord) (r : NbaRecord)
    (h : m.any (fun x => x.id == r.id) = true) :
    (dictInsert m r).map (fun x => x.id) = m.map (fun x => x.id) := by
  rw [dictInsert_of_mem m r h, List.map_map]
  refine List.map_congr_left (fun a _ => ?_)
  by_cases hid : (a.id == r.id) = true
  · have : a.id = r.id := by simpa using hid
    simp [hid, this]
  · have : ¬ (a.id = r.id) := by simpa using hid
    simp [hid, this]

/-- One deactivation step touches only the NBA store's values: every
other state component, and the store's key list, are unchanged. -/
lemma deactStep_spec (now : PyDateTime) (acc : Nat × World) (nid : Nat) :
    (deactStep now acc nid).2.event_to_nba_id = acc.2.event_to_nba_id ∧
    (deactStep now acc nid).2.events = acc.2.events ∧
    (deactStep now acc nid).2.processed = acc.2.processed ∧
    (deactStep now acc nid).2.next_id = acc.2.next_id ∧
    (deactStep now acc nid).2.clock = acc.2.clock ∧
    (deactStep now acc nid).2.nbas.map (fun r => r.id) = acc.2.nbas.map (fun r => r.id)
    := by
  unfold deactStep
  cases hfind : acc.2.nbas.find? (fun r => r.id == nid) with
  | none => simp
  | some existing =>
    by_cases hact : existing.active = true
    · have hmem := List.mem_of_find?_eq_some hfind
      have hany : acc.2.nbas.any
          (fun x => x.id == ({ existing with active := false, updated_at := now } :
            NbaRecord).id) = true :=
        List.any_eq_true.mpr ⟨existing, hmem, by simp⟩
      simp [hact, map_id_dictInsert_replace _ _ hany]
    · simp [hact]

/-- The whole deactivation loop touches only the NBA store's values. -/
lemma foldl_deactStep_spec (now : PyDateTime) (u : List Nat) :
    ∀ acc : Nat × World,
      (u.foldl (deactStep now) acc).2.event_to_nba_id = acc.2.event_to_nba_id ∧
      (u.foldl (deactStep now) acc).2.events = acc.2.events ∧
      (u.foldl (deactStep now) acc).2.processed = acc.2.processed ∧
      (u.foldl (deactStep now) acc).2.next_id = acc.2.next_id ∧
      (u.foldl (deactStep now) acc).2.clock = acc.2.clock ∧
      (u.foldl (deactStep now) acc).2.nbas.map (fun r => r.id)
        = acc.2.nbas.map (fun r => r.id) := by
  induction u with
  | nil => intro acc; simp
  | cons nid u ih =>
    intro acc
    rw [List.foldl_cons]
    have h1 := deactStep_spec now acc nid
    have h2 := ih (deactStep now acc nid)
    exact ⟨h2.1.trans h1.1, h2.2.1.trans h1.2.1, h2.2.2.1.trans h1.2.2.1,
      h2.2.2.2.1.trans h1.2.2.2.1, h2.2.2.2.2.1.trans h1.2.2.2.2.1,
      h2.2.2.2.2.2.trans h1.2.2.2.2.2⟩

/-- Mapping a function that either keeps an element or makes the
predicate false can only lower a `countP`. -/
lemma countP_map_le (p : NbaRecord → Bool) (f : NbaRecord → NbaRecord)
    (hf : ∀ r, f r = r ∨ p (f r) = false) (m : List NbaRecord) :
    (m.map f).countP p ≤ m.countP p := by
  induction m with
  | nil => simp
  | cons a t ih =>
    rw [List.map_cons, List.countP_cons, List.countP_cons]
    rcases hf a with h | h
    · rw [h]; exact Nat.add_le_add ih (Nat.le_refl _)
    · rw [h]
      simp only [Bool.false_eq_true, if_false, Nat.add_zero]
      exact Nat.le_trans ih (Nat.le_add_right _ _)

lemma countP_deactStep_le (now : PyDateTime) (p : NbaRecord → Bool)
    (hp : ∀ r : NbaRecord, p { r with active := false, updated_at := now } = false)
    (acc : Nat × World) (nid : Nat) :
    (deactStep now acc nid).2.nbas.countP p ≤ acc.2.nbas.countP p := by
  unfold deactStep
  cases hfind : acc.2.nbas.find? (fun r => r.id == nid) with
  | none => simp
  | some existing =>
    by_cases hact : existing.active = true
    · have hmem := List.mem_of_find?_eq_some hfind
      have hany : acc.2.nbas.any
          (fun x => x.id == ({ existing with active := false, updated_at := now } :
            NbaRecord).id) = true :=
        List.any_eq_true.mpr ⟨existing, hmem, by simp⟩
      simp only [hact, if_true]
      rw [dictInsert_of_mem _ _ hany]
      refine countP_map_le p _ (fun r => ?_) _
      by_cases hid : (r.id == ({ existing with active := false, updated_at := now } :
          NbaRecord).id) = true
      · right; simp only [hid, if_true]; exact hp existing
      · left; simp [hid]
    · simp [hact]

lemma countP_foldl_deactStep_le (now : PyDateTime) (p : NbaRecord → Bool)
    (hp : ∀ r : NbaRecord, p { r with active := false, updated_at := now } = false)
    (u : List Nat) :
    ∀ acc : Nat × World,
      (u.foldl (deactStep now) acc).2.nbas.countP p ≤ acc.2.nbas.countP p := by
  induction u with
  | nil => intro acc; simp
  | cons nid u ih =>
    intro acc
    rw [List.foldl_cons]
    exact Nat.le_trans (ih _) (countP_deactStep_le now p hp acc nid)

lemma mem_dedupFirst_loop (x : Nat) :
    ∀ (ids acc : List Nat),
      (x ∈ ids.foldl (fun acc i => if acc.contains i then acc else acc ++ [i]) acc)
        ↔ (x ∈ acc ∨ x ∈ ids)
  | [], acc => by simp
  | i :: t, acc => by
    rw [List.foldl_cons]
    by_cases h : acc.contains i = true
    · rw [if_pos h, mem_dedupFirst_loop x t acc]
      have hi : i ∈ acc := by simpa using h
      constructor
      · rintro (ha | ht)
        · exact Or.inl ha
        · exact Or.inr (List.mem_cons_of_mem _ ht)
      · rintro (ha | ht)
        · exact Or.inl ha
        · rcases List.mem_cons.mp ht with rfl | ht
          · exact Or.inl hi
          · exact Or.inr ht
    · rw [if_neg (by simpa using h), mem_dedupFirst_loop x t (acc ++ [i])]
      simp only [List.mem_append, List.mem_singleton, List.mem_cons]
      tauto

lemma mem_dedupFirst (x : Nat) (ids : List Nat) : x ∈ dedupFirst ids ↔ x ∈ ids := by
  have := mem_dedupFirst_loop x ids []
  simpa [dedupFirst] using this

lemma dedupFirst_contains (ids : List Nat) (x : Nat) :
    (dedupFirst ids).contains x = ids.contains x := by
  by_cases hx : x ∈ ids
  · have h2 : x ∈ dedupFirst ids := (mem_dedupFirst x ids).mpr hx
    simp [hx, h2]
  · have h2 : x ∉ dedupFirst ids := fun hc => hx ((mem_dedupFirst x ids).mp hc)
    simp [hx, h2]

/-- The deactivation loop, on a store with unique ids, is the in-place
pointwise map `dIf`. -/
lemma foldl_deactStep_eq (now : PyDateTime) :
    ∀ (u : List Nat) (c : Nat) (w : World),
      (w.nbas.map (fun r => r.id)).Nodup →
      (u.foldl (deactStep now) (c, w)).2 = { w with nbas := w.nbas.map (dIf u now) }
  | [], c, w, h => by
    have hmap : w.nbas.map (dIf [] now) = w.nbas := by
      refine (List.map_congr_left fun a _ => ?_).trans (List.map_id w.nbas)
      simp [dIf]
    simp [hmap]
  | nid :: u, c, w, h => by
    rw [List.foldl_cons]
    cases hfind : w.nbas.find? (fun r => r.id == nid) with
    | none =>
      have hall := List.find?_eq_none.mp hfind
      have hstep : deactStep now (c, w) nid = (c, w) := by
        simp [deactStep, hfind]
      rw [hstep, foldl_deactStep_eq now u c w h]
      congr 1
      refine List.map_congr_left fun a ha => ?_
      have hne : a.id ≠ nid := by
        have := hall a ha; simpa using this
      simp [dIf, List.contains_cons, hne]
    | some existing =>
      have hmem := List.mem_of_find?_eq_some hfind
      have hid : existing.id = nid := by simpa using List.find?_some hfind
      by_cases hact : existing.active = true
      · have hany : w.nbas.any
            (fun x => x.id == ({ existing with active := false, updated_at := now } :
              NbaRecord).id) = true :=
          List.any_eq_true.mpr ⟨existing, hmem, by simp⟩
        have hstep : deactStep now (c, w) nid =
            (c + 1, { w with nbas := (
              w.nbas.map (fun x => if x.id == existing.id then
                { existing with active := false, updated_at := now } else x)) }) := by
          simp only [deactStep]
          rw [hfind]
          simp only [hact, if_true]
          rw [dictInsert_of_mem _ _ hany]
        rw [hstep]
        have hids : (List.map (fun x => if x.id == existing.id then
            { existing with active := false, updated_at := now } else x) w.nbas).map
              (fun r => r.id) = w.nbas.map (fun r => r.id) := by
          rw [List.map_map]
          refine List.map_congr_left fun a _ => ?_
          by_cases hb : a.id = existing.id
          · simp [hb]
          · simp [hb]
        have hnd : ((w.nbas.map (fun x => if x.id == existing.id then
            { existing with active := false, updated_at := now } else x)).map
              (fun r => r.id)).Nodup := by
          rw [hids]; exact h
        rw [foldl_deactStep_eq now u (c + 1)
          { w with nbas := (w.nbas.map (fun x => if x.id == existing.id then
              { existing with active := false, updated_at := now } else x)) } hnd]
        have hinj := List.inj_on_of_nodup_map h
        show ({ w with nbas := (
          (w.nbas.map (fun x => if x.id == existing.id then
            { existing with active := false, updated_at := now } else x)).map (dIf u now)) } :
              World) = _
        congr 1
        rw [List.map_map]
        refine List.map_congr_left fun a ha => ?_
        by_cases hb : a.id = existing.id
        · have haex : a = existing := hinj ha hmem hb
          subst haex
          simp [dIf, hact, List.contains_cons, hid]
        · have hne2 : a.id ≠ nid := fun hc => hb (hc.trans hid.symm)
          simp [dIf, List.contains_cons, hb, hne2]
      · have hact' : existing.active = false := by
          cases hh : existing.active
          · rfl
          · exact absurd hh hact
        have hstep : deactStep now (c, w) nid = (c, w) := by
          simp [deactStep, hfind, hact']
        rw [hstep, foldl_deactStep_eq now u c w h]
        congr 1
        refine List.map_congr_left fun a ha => ?_
        by_cases hb : a.id = nid
        · have haex : a = existing :=
            List.inj_on_of_nodup_map h ha hmem (hb.trans hid.symm)
          subst haex
          simp [dIf, hact']
        · simp [dIf, List.contains_cons, hb]

/-- `deactivate_nbas_by_ids` on a store with unique ids: one clock
tick, and the pointwise deactivation of every listed active record. -/
lemma deactivate_nbas_by_ids_spec (w : World) (ids : List Nat)
    (h : (w.nbas.map (fun r => r.id)).Nodup) :
    (w.deactivate_nbas_by_ids ids).2 =
      { w with nbas := w.nbas.map (dIf ids ⟨w.clock, some 0⟩),
               clock := w.clock + 1 } := by
  unfold World.deactivate_nbas_by_ids World.utc_now
  rw [foldl_deactStep_eq ⟨w.clock, some 0⟩ (dedupFirst ids) 0
    { w with clock := w.clock + 1 } (by simpa using h)]
  congr 1
  refine List.map_congr_left fun a _ => ?_
  by_cases hm : a.id ∈ ids
  · have hm2 : a.id ∈ dedupFirst ids := (mem_dedupFirst _ _).mpr hm
    simp [dIf, hm, hm2]
  · have hm2 : a.id ∉ dedupFirst ids := fun hc => hm ((mem_dedupFirst _ _).mp hc)
    simp [dIf, hm, hm2]

/-! ## Scope supersession and creation -/

lemma activeNewPred_deact (d : String) (en ac co : Option String) (now : PyDateTime)
    (r : NbaRecord) :
    activeNewPred d en ac co { r with active := false, updated_at := now } = false := by
  simp [activeNewPred]

/-- Unfolding of `deactivate_other_active_new_for_scope`'s state. -/
lemma deactivate_other_spec (w : World) (keep : Nat) (d : String)
    (en ac co : Option String) :
    (w.deactivate_other_active_new_for_scope keep d en ac co).2 =
      { w with clock := w.clock + 1, nbas := (w.nbas.map (fun r =>
          if scopeMatch keep d en ac co r then
            { r with active := false, updated_at := ⟨w.clock, some 0⟩ } else r)) } := rfl

/-- Supersession never raises an active-new scope count. -/
lemma deactivate_other_count_le (w : World) (keep : Nat) (d : String)
    (en ac co : Option String) (d' : String) (en' ac' co' : Option String) :
    activeNewScopeCount (w.deactivate_other_active_new_for_scope keep d en ac co).2
        d' en' ac' co'
      ≤ activeNewScopeCount w d' en' ac' co' := by
  rw [deactivate_other_spec]
  refine countP_map_le _ _ (fun r => ?_) _
  by_cases hm : scopeMatch keep d en ac co r = true
  · right; rw [if_pos hm]; exact activeNewPred_deact d' en' ac' co' _ r
  · left; rw [if_neg hm]

/-- After supersession for a scope, every surviving active-new record
of that exact scope carries the kept id, so — with unique ids — the
count for that scope is at most one. -/
lemma deactivate_other_count_called (w : World) (keep : Nat) (d : String)
    (en ac co : Option String) (h : (w.nbas.map (fun r => r.id)).Nodup) :
    activeNewScopeCount (w.deactivate_other_active_new_for_scope keep d en ac co).2
        d en ac co ≤ 1 := by
  rw [deactivate_other_spec]
  show List.countP _ _ ≤ 1
  have hmono : (List.map (fun r =>
      if scopeMatch keep d en ac co r then
        { r with active := false, updated_at := (⟨w.clock, some 0⟩ : PyDateTime) }
      else r) w.nbas).countP (activeNewPred d en ac co)
      ≤ (List.map (fun r =>
      if scopeMatch keep d en ac co r then
        { r with active := false, updated_at := (⟨w.clock, some 0⟩ : PyDateTime) }
      else r) w.nbas).countP (fun r => r.id == keep) := by
    refine List.countP_mono_left (fun r hr hp => ?_)
    rcases List.mem_map.mp hr with ⟨x, hx, rfl⟩
    by_cases hsm : scopeMatch keep d en ac co x = true
    · rw [if_pos hsm] at hp
      exact absurd hp (by simp [activeNewPred_deact])
    · rw [if_neg hsm] at hp ⊢
      by_cases hk : x.id = keep
      · simpa using hk
      · exfalso
        apply hsm
        unfold activeNewPred scopeEq at hp
        unfold scopeMatch
        simp only [Bool.and_eq_true, beq_iff_eq] at hp
        simp only [Bool.and_eq_true, bne_iff_ne, beq_iff_eq]
        tauto
  refine Nat.le_trans hmono ?_
  have hids : (List.map (fun r =>
      if scopeMatch keep d en ac co r then
        { r with active := false, updated_at := (⟨w.clock, some 0⟩ : PyDateTime) }
      else r) w.nbas).countP (fun r => r.id == keep)
      = w.nbas.countP (fun r => r.id == keep) := by
    rw [List.countP_map]
    refine List.countP_congr (fun r _ => ?_)
    by_cases hsm : scopeMatch keep d en ac co r = true
    · simp [Function.comp, hsm]
    · simp [Function.comp, hsm]
  rw [hids]
  have : w.nbas.countP (fun r => r.id == keep)
      = (w.nbas.map (fun r => r.id)).count keep := by
    rw [List.count, List.countP_map]
    rfl
  rw [this]
  exact List.nodup_iff_count_le_one.mp h keep

/-- Supersession leaves the stored key list unchanged. -/
lemma deactivate_other_ids (w : World) (keep : Nat) (d : String)
    (en ac co : Option String) :
    (w.deactivate_other_active_new_for_scope keep d en ac co).2.nbas.map (fun r => r.id)
      = w.nbas.map (fun r => r.id) := by
  rw [deactivate_other_spec]
  show (w.nbas.map _).map _ = _
  rw [List.map_map]
  refine List.map_congr_left fun a _ => ?_
  by_cases hsm : scopeMatch keep d en ac co a = true
  · simp [Function.comp, hsm]
  · simp [Function.comp, hsm]

lemma upsert_seen_spec (w : World) (event_id d : String) (en ac co : Option String)
    (ctx : List (String × String)) (nid : Nat)
    (hl : w.event_to_nba_id.lookup event_id = some nid) :
    w.upsert_from_calculation_event event_id d en ac co ctx = (w.get_nba nid, w) := by
  unfold World.upsert_from_calculation_event
  rw [hl]

lemma upsert_fresh_spec (w : World) (event_id d : String) (en ac co : Option String)
    (ctx : List (String × String))
    (hl : w.event_to_nba_id.lookup event_id = none)
    (hfr : w.nbas.any (fun x => x.id == w.next_id) = false) :
    w.upsert_from_calculation_event event_id d en ac co ctx =
      (some (freshNba w d en ac co ctx),
       { w with nbas := w.nbas ++ [freshNba w d en ac co ctx],
                event_to_nba_id := w.event_to_nba_id ++ [(event_id, w.next_id)],
                next_id := w.next_id + 1, clock := w.clock + 1 }) := by
  simp [World.upsert_from_calculation_event, hl, World.utc_now, World.fresh_id,
    dictInsert, hfr, freshNba]

/-! ## Well-formedness preservation -/

lemma WF_of_parts {w w' : World} (h : w.WF)
    (hids : w'.nbas.map (fun r => r.id) = w.nbas.map (fun r => r.id))
    (hnid : w.next_id ≤ w'.next_id) : w'.WF := by
  constructor
  · rw [hids]; exact h.1
  · intro r hr
    have hmem : r.id ∈ w'.nbas.map (fun r => r.id) := List.mem_map_of_mem _ hr
    rw [hids] at hmem
    rcases List.mem_map.mp hmem with ⟨s, hs, hsid⟩
    have := h.2 s hs
    omega

lemma World.WF.any_next_false {w : World} (h : w.WF) :
    w.nbas.any (fun x => x.id == w.next_id) = false := by
  refine List.any_eq_false.mpr (fun x hx => ?_)
  have := h.2 x hx
  simp only [beq_iff_eq]
  omega

/-- `deactivate_nbas_by_ids` changes only record values and the
clock: every other component and the key list are untouched. -/
lemma deactivate_by_ids_fields (w : World) (ids : List Nat) :
    (w.deactivate_nbas_by_ids ids).2.event_to_nba_id = w.event_to_nba_id ∧
    (w.deactivate_nbas_by_ids ids).2.events = w.events ∧
    (w.deactivate_nbas_by_ids ids).2.processed = w.processed ∧
    (w.deactivate_nbas_by_ids ids).2.next_id = w.next_id ∧
    (w.deactivate_nbas_by_ids ids).2.clock = w.clock + 1 ∧
    (w.deactivate_nbas_by_ids ids).2.nbas.map (fun r => r.id)
      = w.nbas.map (fun r => r.id) := by
  unfold World.deactivate_nbas_by_ids World.utc_now
  exact foldl_deactStep_spec ⟨w.clock, some 0⟩ (dedupFirst ids)
    (0, { w with clock := w.clock + 1 })

lemma WF_deactivate_by_ids (w : World) (ids : List Nat) (h : w.WF) :
    (w.deactivate_nbas_by_ids ids).2.WF := by
  have hspec := deactivate_by_ids_fields w ids
  refine WF_of_parts h hspec.2.2.2.2.2 ?_
  rw [hspec.2.2.2.1]

lemma WF_deactivate_other (w : World) (keep : Nat) (d : String)
    (en ac co : Option String) (h : w.WF) :
    (w.deactivate_other_active_new_for_scope keep d en ac co).2.WF :=
  WF_of_parts h (deactivate_other_ids w keep d en ac co) (Nat.le_refl _)

lemma WF_mark_processed (w : World) (e : String) (h : w.WF) :
    (w.mark_processed e).WF := by
  unfold World.mark_processed
  split
  · exact h
  · exact WF_of_parts h rfl (Nat.le_refl _)

lemma WF_upsert_world (w1 : World) (e d : String) (en ac co : Option String)
    (ctx : List (String × String)) (h : w1.WF) :
    (w1.upsert_from_calculation_event e d en ac co ctx).2.WF := by
  cases hl : w1.event_to_nba_id.lookup e with
  | some nid =>
    rw [upsert_seen_spec _ _ _ _ _ _ _ nid hl]
    exact h
  | none =>
    rw [upsert_fresh_spec _ _ _ _ _ _ _ hl h.any_next_false]
    constructor
    · show ((w1.nbas ++ [freshNba w1 d en ac co ctx]).map (fun r => r.id)).Nodup
      rw [List.map_append]
      rw [List.nodup_append]
      refine ⟨h.1, by simp, fun x hx hx2 => ?_⟩
      rcases List.mem_map.mp hx with ⟨s, hs, rfl⟩
      have hlt := h.2 s hs
      have : s.id = w1.next_id := by simpa [freshNba] using hx2
      omega
    · intro r hr
      show r.id < w1.next_id + 1
      rcases List.mem_append.mp hr with hr | hr
      · have := h.2 r hr; omega
      · have : r = freshNba w1 d en ac co ctx := by simpa using hr
        subst this
        show w1.next_id < w1.next_id + 1
        omega

lemma deactivate_by_ids_count_le (w : World) (ids : List Nat) (d : String)
    (en ac co : Option String) :
    activeNewScopeCount (w.deactivate_nbas_by_ids ids).2 d en ac co
      ≤ activeNewScopeCount w d en ac co := by
  unfold World.deactivate_nbas_by_ids World.utc_now activeNewScopeCount
  exact countP_foldl_deactStep_le _ _ (activeNewPred_deact d en ac co _) _ _

lemma mark_processed_count (w : World) (e : String) (d : String)
    (en ac co : Option String) :
    activeNewScopeCount (w.mark_processed e) d en ac co
      = activeNewScopeCount w d en ac co := by
  unfold World.mark_processed
  split
  · rfl
  · rfl

lemma Inv_empty : Inv World.empty := by
  refine ⟨⟨by simp [World.empty], by simp [World.empty]⟩, fun d en ac co => ?_⟩
  simp [activeNewScopeCount, World.empty]

/-- Any active-new scope count is invariant under the clock tick, the
id draw, and the log append that follow supersession. -/
lemma count_after_log_chain (x : World) (e : NbaEventLogRecord) (d : String)
    (en ac co : Option String) :
    activeNewScopeCount (((x.utc_now).2.fresh_id).2.add_event e).2 d en ac co
      = activeNewScopeCount x d en ac co := rfl

/-- Well-formedness survives the clock tick, the id draw, and the log
append that follow supersession. -/
lemma WF_after_log_chain (x : World) (e : NbaEventLogRecord) (h : x.WF) :
    (((x.utc_now).2.fresh_id).2.add_event e).2.WF :=
  WF_of_parts h rfl (Nat.le_succ _)

/-- One processing step preserves well-formedness and per-scope
exclusivity, whatever the payload. -/
lemma process_Inv (w : World) (p : CalcPayload) (h : Inv w) : Inv (process w p).2 := by
  obtain ⟨hwf, hexc⟩ := h
  unfold process
  by_cases hdup : w.is_processed p.event_id = true
  · rw [if_pos (by simp [hdup])]
    exact ⟨hwf, hexc⟩
  · rw [if_neg (by simpa using hdup)]
    dsimp only
    set w1 := if p.deactivate_nba_ids.isEmpty then w
      else (w.deactivate_nbas_by_ids p.deactivate_nba_ids).2 with hw1
    have h1 : w1.WF := by
      rw [hw1]; split
      · exact hwf
      · exact WF_deactivate_by_ids _ _ hwf
    have h1c : ∀ d en ac co, activeNewScopeCount w1 d en ac co ≤ 1 := by
      intro d en ac co
      rw [hw1]; split
      · exact hexc d en ac co
      · exact Nat.le_trans (deactivate_by_ids_count_le _ _ _ _ _ _) (hexc d en ac co)
    by_cases hcn : p.create_nba = true
    · rw [if_neg (by simp [hcn])]
      dsimp only
      cases hl : w1.event_to_nba_id.lookup p.event_id with
      | some nid =>
        rw [upsert_seen_spec _ _ _ _ _ _ _ nid hl]
        dsimp only
        cases hg : w1.get_nba nid with
        | none =>
          dsimp only
          exact ⟨WF_mark_processed _ _ h1,
            fun d en ac co => by rw [mark_processed_count]; exact h1c d en ac co⟩
        | some nba =>
          dsimp only
          refine ⟨WF_mark_processed _ _
            (WF_after_log_chain _ _ (WF_deactivate_other _ _ _ _ _ _ h1)), ?_⟩
          intro d' en' ac' co'
          rw [mark_processed_count, count_after_log_chain]
          by_cases htup : nba.nba_definition_id = d' ∧ nba.enterprise_number = en'
              ∧ nba.account_id = ac' ∧ nba.contact_id = co'
          · obtain ⟨rfl, rfl, rfl, rfl⟩ := htup
            exact deactivate_other_count_called _ _ _ _ _ _ h1.1
          · exact Nat.le_trans
              (deactivate_other_count_le _ _ _ _ _ _ d' en' ac' co') (h1c d' en' ac' co')
      | none =>
        rw [upsert_fresh_spec _ _ _ _ _ _ _ hl h1.any_next_false]
        dsimp only
        set nba := freshNba w1 p.nba_definition_id p.enterprise_number p.account_id
          p.contact_id p.context with hnba
        set wup : World := { w1 with
          nbas := w1.nbas ++ [nba],
          event_to_nba_id := w1.event_to_nba_id ++ [(p.event_id, w1.next_id)],
          next_id := w1.next_id + 1, clock := w1.clock + 1 } with hwup
        have h2 : wup.WF := by
          have hw := WF_upsert_world w1 p.event_id p.nba_definition_id p.enterprise_number
            p.account_id p.contact_id p.context h1
          rwa [upsert_fresh_spec _ _ _ _ _ _ _ hl h1.any_next_false] at hw
        refine ⟨WF_mark_processed _ _
          (WF_after_log_chain _ _ (WF_deactivate_other _ _ _ _ _ _ h2)), ?_⟩
        intro d' en' ac' co'
        rw [mark_processed_count, count_after_log_chain]
        by_cases htup : nba.nba_definition_id = d' ∧ nba.enterprise_number = en'
            ∧ nba.account_id = ac' ∧ nba.contact_id = co'
        · obtain ⟨rfl, rfl, rfl, rfl⟩ := htup
          exact deactivate_other_count_called _ _ _ _ _ _ h2.1
        · refine Nat.le_trans
            (deactivate_other_count_le _ _ _ _ _ _ d' en' ac' co') ?_
          have hcount : activeNewScopeCount wup d' en' ac' co'
              = activeNewScopeCount w1 d' en' ac' co' := by
            show (w1.nbas ++ [nba]).countP _ = _
            rw [List.countP_append]
            have hzero : (activeNewPred d' en' ac' co' nba) = false := by
              cases hp : activeNewPred d' en' ac' co' nba
              · rfl
              · exfalso
                apply htup
                rw [hnba] at hp
                unfold activeNewPred scopeEq freshNba at hp
                simp only [Bool.and_eq_true, beq_iff_eq] at hp
                rw [hnba]
                unfold freshNba
                exact ⟨hp.2.1.1.1, hp.2.1.1.2, hp.2.1.2, hp.2.2⟩
            simp [hzero, activeNewScopeCount]
          rw [hcount]
          exact h1c d' en' ac' co'
    · rw [if_pos (by simpa using hcn)]
      exact ⟨WF_mark_processed _ _ h1,
        fun d en ac co => by rw [mark_processed_count]; exact h1c d en ac co⟩

lemma processAll_Inv (ps : List CalcPayload) : ∀ w : World, Inv w → Inv (processAll w ps) := by
  induction ps with
  | nil => intro w h; exact h
  | cons p ps ih =>
    intro w h
    exact ih _ (process_Inv w p h)

/-! ## The processed-event ledger -/

lemma mark_processed_mono (w : World) (e x : String) (h : w.is_processed x = true) :
    (w.mark_processed e).is_processed x = true := by
  unfold World.mark_processed
  split
  · exact h
  · unfold World.is_processed at *
    have hx : x ∈ w.processed := by simpa using h
    simp [hx]

lemma upsert_processed (w1 : World) (e d : String) (en ac co : Option String)
    (ctx : List (String × String)) :
    (w1.upsert_from_calculation_event e d en ac co ctx).2.processed = w1.processed := by
  unfold World.upsert_from_calculation_event
  split <;> rfl

lemma update_status_processed (w : World) (nid : Nat) (sv : String) :
    (w.update_status nid sv).2.processed = w.processed := by
  unfold World.update_status
  split <;> rfl

lemma process_of_processed (w : World) (p : CalcPayload)
    (h : w.is_processed p.event_id = true) :
    process w p = (⟨.duplicate_skipped, none⟩, w) := by
  unfold process
  rw [if_pos (by simp [h])]

lemma process_processed_mono (w : World) (p : CalcPayload) (e : String)
    (h : w.is_processed e = true) : (process w p).2.is_processed e = true := by
  unfold process
  by_cases hdup : w.is_processed p.event_id = true
  · rw [if_pos (by simp [hdup])]
    exact h
  · rw [if_neg (by simpa using hdup)]
    dsimp only
    set w1 := if p.deactivate_nba_ids.isEmpty then w
      else (w.deactivate_nbas_by_ids p.deactivate_nba_ids).2 with hw1
    have h1 : w1.is_processed e = true := by
      rw [hw1]; split
      · exact h
      · unfold World.is_processed
        rw [(deactivate_by_ids_fields w p.deactivate_nba_ids).2.2.1]
        exact h
    by_cases hcn : p.create_nba = true
    · rw [if_neg (by simp [hcn])]
      dsimp only
      cases hup : (w1.upsert_from_calculation_event p.event_id p.nba_definition_id
          p.enterprise_number p.account_id p.contact_id p.context).1 with
      | none =>
        dsimp only
        apply mark_processed_mono
        unfold World.is_processed
        rw [upsert_processed]
        exact h1
      | some nba =>
        dsimp only
        apply mark_processed_mono
        unfold World.is_processed
        show ((w1.upsert_from_calculation_event p.event_id p.nba_definition_id
          p.enterprise_number p.account_id p.contact_id p.context).2.processed).contains e
            = true
        rw [upsert_processed]
        exact h1
    · rw [if_pos (by simpa using hcn)]
      exact mark_processed_mono _ _ _ h1

lemma processAll_processed_mono (ps : List CalcPayload) :
    ∀ (w : World) (e : String), w.is_processed e = true →
      (processAll w ps).is_processed e = true := by
  induction ps with
  | nil => intro w e h; exact h
  | cons p ps ih =>
    intro w e h
    exact ih _ _ (process_processed_mono w p e h)

lemma register_action_processed (w : World) (nid : Nat) (sv : String)
    (aat : Option PyDateTime) (c : Option String) (u : String) :
    (register_action w nid sv aat c u).2.processed = w.processed := by
  unfold register_action
  split
  · rfl
  · split
    · rfl
    · rename_i nba _
      split
      · split
        · split
          · rfl
          · rfl
        · rfl
      · cases aat with
        | some d => exact update_status_processed w nid sv
        | none => exact update_status_processed { w with clock := w.clock + 1 } nid sv

lemma is_processed_mark_self (w : World) (e : String) :
    (w.mark_processed e).is_processed e = true := by
  unfold World.mark_processed
  by_cases hc : w.processed.contains e = true
  · rw [if_pos hc]; exact hc
  · rw [if_neg hc]
    unfold World.is_processed
    simp

lemma mark_processed_of_not (x : World) (e : String)
    (h : x.processed.contains e = false) :
    x.mark_processed e = { x with processed := x.processed ++ [e] } := by
  unfold World.mark_processed
  rw [if_neg (by rw [h]; simp)]

lemma lookup_append_of_none {β : Type} (l₁ l₂ : List (String × β)) (k : String)
    (h : l₁.lookup k = none) : (l₁ ++ l₂).lookup k = l₂.lookup k := by
  induction l₁ with
  | nil => simp
  | cons a t ih =>
    rcases a with ⟨ka, va⟩
    rw [List.cons_append]
    cases hk : (k == ka) with
    | true =>
      rw [List.lookup_cons, hk] at h
      exact absurd h (by simp)
    | false =>
      rw [List.lookup_cons, hk] at h
      rw [List.lookup_cons, hk]
      exact ih h

/-- The full effect of a first-sight create event: the (optional)
bulk deactivation touches only record values, and then a fresh record
is appended, superseded-over, logged and the event marked. -/
lemma process_fresh_create (w : World) (p : CalcPayload)
    (hwf : w.WF) (hdup : w.is_processed p.event_id = false)
    (hassoc : w.event_to_nba_id.lookup p.event_id = none)
    (hcn : p.create_nba = true) :
    ∃ (w1 : World) (nba : NbaRecord) (log : NbaEventLogRecord),
      w1.event_to_nba_id = w.event_to_nba_id ∧
      w1.processed = w.processed ∧
      w1.events = w.events ∧
      w1.nbas.map (fun r => r.id) = w.nbas.map (fun r => r.id) ∧
      w1.next_id = w.next_id ∧
      w1.WF ∧
      nba = freshNba w1 p.nba_definition_id p.enterprise_number p.account_id
        p.contact_id p.context ∧
      process w p = (⟨.created, some nba.id⟩,
        { nbas := ((w1.nbas ++ [nba]).map (fun r =>
            if scopeMatch nba.id nba.nba_definition_id nba.enterprise_number
              nba.account_id nba.contact_id r then
              { r with active := false, updated_at := ⟨w1.clock + 1, some 0⟩ } else r)),
          event_to_nba_id := w1.event_to_nba_id ++ [(p.event_id, w1.next_id)],
          events := w1.events ++ [log],
          processed := w1.processed ++ [p.event_id],
          next_id := w1.next_id + 1 + 1,
          clock := w1.clock + 1 + 1 + 1 }) := by
  unfold process
  rw [if_neg (by simp [hdup])]
  dsimp only
  set w1 := if p.deactivate_nba_ids.isEmpty then w
    else (w.deactivate_nbas_by_ids p.deactivate_nba_ids).2 with hw1
  have hfields : w1.event_to_nba_id = w.event_to_nba_id ∧ w1.events = w.events ∧
      w1.processed = w.processed ∧ w1.next_id = w.next_id ∧
      w1.nbas.map (fun r => r.id) = w.nbas.map (fun r => r.id) := by
    rw [hw1]; split
    · exact ⟨rfl, rfl, rfl, rfl, rfl⟩
    · have hd := deactivate_by_ids_fields w p.deactivate_nba_ids
      exact ⟨hd.1, hd.2.1, hd.2.2.1, hd.2.2.2.1, hd.2.2.2.2.2⟩
  have h1 : w1.WF := by
    rw [hw1]; split
    · exact hwf
    · exact WF_deactivate_by_ids _ _ hwf
  have hl1 : w1.event_to_nba_id.lookup p.event_id = none := by
    rw [hfields.1]; exact hassoc
  refine ⟨w1,
    freshNba w1 p.nba_definition_id p.enterprise_number p.account_id p.contact_id
      p.context,
    ⟨w1.next_id + 1,
     (freshNba w1 p.nba_definition_id p.enterprise_number p.account_id p.contact_id
       p.context).id,
     NBA_STATUS_NEW, .eventMeta p.source p.occurred_at, none,
     ⟨w1.clock + 1 + 1, some 0⟩⟩,
    hfields.1, hfields.2.2.1, hfields.2.1, hfields.2.2.2.2, hfields.2.2.2.1, h1,
    rfl, ?_⟩
  rw [if_neg (by simp [hcn])]
  rw [upsert_fresh_spec w1 _ _ _ _ _ _ hl1 h1.any_next_false]
  dsimp only
  rw [deactivate_other_spec]
  have hcont : w1.processed.contains p.event_id = false := by
    rw [hfields.2.2.1]; exact hdup
  rw [mark_processed_of_not]
  · rfl
  · exact hcont

/-! ## The action service -/

lemma find?_map_replace (k : Nat) (u : NbaRecord) (hu : u.id = k) :
    ∀ l : List NbaRecord, (l.find? (fun x => x.id == k)).isSome = true →
      (l.map (fun x => if x.id == k then u else x)).find? (fun x => x.id == k)
        = some u := by
  intro l
  induction l with
  | nil => intro hex; simp at hex
  | cons a t ih =>
    intro hex
    rw [List.map_cons]
    by_cases hb : (a.id == k) = true
    · rw [if_pos hb]
      have hpu : (u.id == k) = true := by simp [hu]
      exact @List.find?_cons_of_pos _ (fun x => x.id == k) u _ hpu
    · rw [if_neg hb]
      rw [@List.find?_cons_of_neg _ (fun x => x.id == k) a _ (by simp [hb])]
      apply ih
      rw [@List.find?_cons_of_neg _ (fun x => x.id == k) a _ (by simp [hb])] at hex
      exact hex

lemma update_status_spec (w : World) (nid : Nat) (r : NbaRecord) (sv : String)
    (hr : w.get_nba nid = some r) :
    w.update_status nid sv =
      (some { r with status := sv, updated_at := ⟨w.clock, some 0⟩ },
       { w with clock := w.clock + 1,
                nbas := (w.nbas.map (fun x => if x.id == r.id then
                  { r with status := sv, updated_at := ⟨w.clock, some 0⟩ } else x)) }) := by
  unfold World.get_nba at hr
  unfold World.update_status
  rw [hr]
  dsimp only
  rw [dictInsert_of_mem]
  · rfl
  · exact List.any_eq_true.mpr ⟨r, List.mem_of_find?_eq_some hr, by simp⟩

/-- The success path of `register_action` on a status-`new` record:
the returned entry's fields, the appended log, the status update, and
the components it leaves alone. -/
lemma register_action_new_spec (w : World) (nid : Nat) (r : NbaRecord) (sv : String)
    (aat : Option PyDateTime) (c : Option String) (u : String)
    (hr : w.get_nba nid = some r) (hnew : r.status = NBA_STATUS_NEW)
    (hsv : ACTION_STATUSES.contains sv = true) :
    ∃ e : NbaEventLogRecord,
      (register_action w nid sv aat c u).1 = .ok e ∧
      e.nba_id = nid ∧ e.status = sv ∧ e.acted_by = some u ∧
      e.context = commentContext c ∧
      e.action_at = (match aat with
        | none => ⟨w.clock, some 0⟩
        | some dt => if dt.tzoffset == none then { dt with tzoffset := some 0 }
                     else dt) ∧
      (register_action w nid sv aat c u).2.events = w.events ++ [e] ∧
      (register_action w nid sv aat c u).2.event_to_nba_id = w.event_to_nba_id ∧
      (register_action w nid sv aat c u).2.processed = w.processed ∧
      (∃ t : PyDateTime, (register_action w nid sv aat c u).2.get_nba nid
        = some { r with status := sv, updated_at := t }) ∧
      (register_action w nid sv aat c u).2.nbas.map (fun x => x.id)
        = w.nbas.map (fun x => x.id) := by
  have hrid : r.id = nid := by
    have := List.find?_some hr
    simpa using this
  subst hrid
  have hterm : ¬ ((r.status == NBA_STATUS_ACCEPTED
      || r.status == NBA_STATUS_REJECTED) = true) := by
    rw [hnew]; decide
  have hmapids : ∀ (upd : NbaRecord), upd.id = r.id →
      ∀ l : List NbaRecord,
      (l.map (fun x => if x.id == r.id then upd else x)).map (fun x => x.id)
        = l.map (fun x => x.id) := by
    intro upd hupd l
    rw [List.map_map]
    refine List.map_congr_left fun a _ => ?_
    by_cases hb : a.id = r.id
    · simp [hb, hupd]
    · simp [hb]
  have hsv' : sv ∈ ACTION_STATUSES := by simpa using hsv
  cases aat with
  | none =>
    unfold register_action
    rw [if_neg (by simp [hsv'])]
    unfold World.get_nba at hr ⊢
    rw [hr]
    dsimp only
    rw [if_neg hterm]
    dsimp only
    rw [update_status_spec w.utc_now.2 r.id r sv hr]
    dsimp only
    exact ⟨_, rfl, rfl, rfl, rfl, rfl, rfl, rfl, rfl, rfl,
      ⟨_, find?_map_replace r.id
        { r with status := sv, updated_at := ⟨w.utc_now.2.clock, some 0⟩ } rfl w.nbas
        (by rw [hr]; rfl)⟩,
      hmapids { r with status := sv, updated_at := ⟨w.utc_now.2.clock, some 0⟩ }
        rfl w.nbas⟩
  | some dt =>
    unfold register_action
    rw [if_neg (by simp [hsv'])]
    unfold World.get_nba at hr ⊢
    rw [hr]
    dsimp only
    rw [if_neg hterm]
    dsimp only
    rw [update_status_spec w r.id r sv hr]
    dsimp only
    exact ⟨_, rfl, rfl, rfl, rfl, rfl, rfl, rfl, rfl, rfl,
      ⟨_, find?_map_replace r.id
        { r with status := sv, updated_at := ⟨w.clock, some 0⟩ } rfl w.nbas
        (by rw [hr]; rfl)⟩,
      hmapids { r with status := sv, updated_at := ⟨w.clock, some 0⟩ } rfl w.nbas⟩

/-- A terminal record and a different requested status: conflict, no
state change. -/
lemma register_action_conflict_ne (w : World) (nid : Nat) (r : NbaRecord) (sv : String)
    (aat : Option PyDateTime) (c : Option String) (u : String)
    (hr : w.get_nba nid = some r)
    (hterm : r.status = NBA_STATUS_ACCEPTED ∨ r.status = NBA_STATUS_REJECTED)
    (hne : r.status ≠ sv)
    (hsv : sv ∈ ACTION_STATUSES) :
    register_action w nid sv aat c u = (.error .conflict, w) := by
  unfold register_action
  rw [if_neg (by simp [hsv])]
  rw [hr]
  dsimp only
  rw [if_pos (by rcases hterm with h | h <;>
    simp [h, NBA_STATUS_ACCEPTED, NBA_STATUS_REJECTED])]
  rw [if_neg (by simp [hne])]

/-- A terminal record, the same requested status, and a matching prior
human-action entry: that entry is returned, no state change. -/
lemma register_action_idem_found (w : World) (nid : Nat) (r : NbaRecord) (sv : String)
    (e : NbaEventLogRecord) (aat : Option PyDateTime) (c : Option String) (u : String)
    (hr : w.get_nba nid = some r)
    (hterm : r.status = NBA_STATUS_ACCEPTED ∨ r.status = NBA_STATUS_REJECTED)
    (heq : r.status = sv)
    (hfind : w.find_action_event nid sv = some e)
    (hsv : sv ∈ ACTION_STATUSES) :
    register_action w nid sv aat c u = (.ok e, w) := by
  unfold register_action
  rw [if_neg (by simp [hsv])]
  rw [hr]
  dsimp only
  rw [if_pos (by rcases hterm with h | h <;>
    simp [h, NBA_STATUS_ACCEPTED, NBA_STATUS_REJECTED])]
  rw [if_pos (by simp [heq])]
  rw [hfind]

/-- A terminal record, the same requested status, but no matching
prior human-action entry: conflict, no state change. -/
lemma register_action_conflict_nolog (w : World) (nid : Nat) (r : NbaRecord)
    (sv : String) (aat : Option PyDateTime) (c : Option String) (u : String)
    (hr : w.get_nba nid = some r)
    (hterm : r.status = NBA_STATUS_ACCEPTED ∨ r.status = NBA_STATUS_REJECTED)
    (heq : r.status = sv)
    (hfind : w.find_action_event nid sv = none)
    (hsv : sv ∈ ACTION_STATUSES) :
    register_action w nid sv aat c u = (.error .conflict, w) := by
  unfold register_action
  rw [if_neg (by simp [hsv])]
  rw [hr]
  dsimp only
  rw [if_pos (by rcases hterm with h | h <;>
    simp [h, NBA_STATUS_ACCEPTED, NBA_STATUS_REJECTED])]
  rw [if_pos (by simp [heq])]
  rw [hfind]

/-! ## Claim theorems -/

/-- C2: after any serial sequence of calculation events from startup,
at most one NBA record per exact scope tuple (null equal only to null)
is active with status `new`; and in the concrete run of two create
events on one scope, exactly one such record remains, the earlier
record (id 0) having been deactivated while the later one (id 2) stays
active and `new`. -/
theorem scope_exclusivity :
    (∀ (ps : List CalcPayload) (d : String) (en ac co : Option String),
      activeNewScopeCount (processAll World.empty ps) d en ac co ≤ 1) ∧
    activeNewScopeCount (processAll World.empty [scopePayloadA, scopePayloadB])
        "defn-1" (some "ent-1") (some "acc-1") none = 1 ∧
    ((processAll World.empty [scopePayloadA, scopePayloadB]).get_nba 0).map
        (fun r => (r.active, r.status)) = some (false, NBA_STATUS_NEW) ∧
    ((processAll World.empty [scopePayloadA, scopePayloadB]).get_nba 2).map
        (fun r => (r.active, r.status)) = some (true, NBA_STATUS_NEW) := by
  refine ⟨fun ps d en ac co => (processAll_Inv ps World.empty Inv_empty).2 d en ac co,
    by decide, by decide, by decide⟩

/-- C1: processing a first-sight create event creates exactly one
record for that event id (store grows by one, the id association maps
the event id to it, and the created id is unique in the store); a
second `process` call with the same payload returns
`duplicate_skipped` and leaves the state untouched; and at the store
level, `upsert_from_calculation_event` on the already-seen event id
returns the associated record and changes nothing. -/
theorem idempotent_event_creation (w : World) (p : CalcPayload)
    (hwf : w.WF) (hdup : w.is_processed p.event_id = false)
    (hassoc : w.event_to_nba_id.lookup p.event_id = none)
    (hcn : p.create_nba = true) :
    ∃ rec : NbaRecord,
      (process w p).1 = ⟨.created, some rec.id⟩ ∧
      (process w p).2.nbas.length = w.nbas.length + 1 ∧
      (process w p).2.event_to_nba_id.lookup p.event_id = some rec.id ∧
      (process w p).2.nbas.countP (fun x => x.id == rec.id) = 1 ∧
      process (process w p).2 p = (⟨.duplicate_skipped, none⟩, (process w p).2) ∧
      (process w p).2.get_nba rec.id = some rec ∧
      (process w p).2.upsert_from_calculation_event p.event_id p.nba_definition_id
          p.enterprise_number p.account_id p.contact_id p.context
        = (some rec, (process w p).2) := by
  obtain ⟨w1, nba, log, ha, hpr, he, hids, hnid, h1wf, hnba, hproc⟩ :=
    process_fresh_create w p hwf hdup hassoc hcn
  have hnbaid : nba.id = w1.next_id := by rw [hnba]; rfl
  have hlt : ∀ x ∈ w1.nbas, x.id ≠ nba.id := by
    intro x hx
    have := h1wf.2 x hx
    rw [hnbaid]
    omega
  have hgid : ∀ r : NbaRecord,
      (if scopeMatch nba.id nba.nba_definition_id nba.enterprise_number nba.account_id
          nba.contact_id r then
        { r with active := false, updated_at := ⟨w1.clock + 1, some 0⟩ }
       else r).id = r.id := by
    intro r; split <;> rfl
  have hgnba : (if scopeMatch nba.id nba.nba_definition_id nba.enterprise_number
      nba.account_id nba.contact_id nba then
        { nba with active := false, updated_at := ⟨w1.clock + 1, some 0⟩ } else nba)
      = nba := by
    rw [if_neg (by simp [scopeMatch])]
  have hlen1 : w1.nbas.length = w.nbas.length := by
    have := congrArg List.length hids
    simpa using this
  have h_res : (process w p).1 = ⟨.created, some nba.id⟩ := by
    rw [hproc]
  have h_len : (process w p).2.nbas.length = w.nbas.length + 1 := by
    rw [hproc]
    dsimp only
    rw [List.length_map, List.length_append, hlen1]
    rfl
  have hlookup : (process w p).2.event_to_nba_id.lookup p.event_id = some nba.id := by
    rw [hproc]
    dsimp only
    rw [lookup_append_of_none _ _ _ (by rw [ha]; exact hassoc)]
    simp [List.lookup_cons, hnbaid]
  have h_count : (process w p).2.nbas.countP (fun x => x.id == nba.id) = 1 := by
    rw [hproc]
    dsimp only
    rw [List.map_append, List.countP_append]
    have h0 : ∀ a ∈ w1.nbas.map (fun r =>
        if scopeMatch nba.id nba.nba_definition_id nba.enterprise_number nba.account_id
          nba.contact_id r then
          { r with active := false, updated_at := ⟨w1.clock + 1, some 0⟩ }
        else r), ¬ ((fun x => x.id == nba.id) a = true) := by
      intro a hamem
      rcases List.mem_map.mp hamem with ⟨x, hx, rfl⟩
      simp [hgid x, hlt x hx]
    rw [List.countP_eq_zero.mpr h0]
    rw [List.map_singleton, hgnba]
    simp [List.countP_cons]
  have h_dup : process (process w p).2 p
      = (⟨.duplicate_skipped, none⟩, (process w p).2) := by
    apply process_of_processed
    rw [hproc]
    unfold World.is_processed
    dsimp only
    simp
  have hget : (process w p).2.get_nba nba.id = some nba := by
    rw [hproc]
    unfold World.get_nba
    dsimp only
    rw [List.map_append, List.find?_append]
    have hnone : (w1.nbas.map (fun r =>
        if scopeMatch nba.id nba.nba_definition_id nba.enterprise_number nba.account_id
          nba.contact_id r then
          { r with active := false, updated_at := ⟨w1.clock + 1, some 0⟩ }
        else r)).find? (fun r => r.id == nba.id) = none := by
      rw [List.find?_eq_none]
      intro x hx
      rcases List.mem_map.mp hx with ⟨y, hy, rfl⟩
      simp [hgid y, hlt y hy]
    rw [hnone, List.map_singleton, hgnba]
    simp [List.find?]
  have h_upsert : (process w p).2.upsert_from_calculation_event p.event_id
      p.nba_definition_id p.enterprise_number p.account_id p.contact_id p.context
      = (some nba, (process w p).2) := by
    rw [upsert_seen_spec _ _ _ _ _ _ _ nba.id hlookup, hget]
  exact ⟨nba, h_res, h_len, hlookup, h_count, h_dup, hget, h_upsert⟩

/-- Witness for C1: the create event `scopePayloadA` processed twice
from the empty startup state. -/
theorem idempotent_event_creation_witness :
    ∃ rec : NbaRecord,
      (process World.empty scopePayloadA).1 = ⟨.created, some rec.id⟩ ∧
      (process World.empty scopePayloadA).2.nbas.length
        = World.empty.nbas.length + 1 ∧
      (process World.empty scopePayloadA).2.event_to_nba_id.lookup
        scopePayloadA.event_id = some rec.id ∧
      (process World.empty scopePayloadA).2.nbas.countP (fun x => x.id == rec.id) = 1 ∧
      process (process World.empty scopePayloadA).2 scopePayloadA
        = (⟨.duplicate_skipped, none⟩, (process World.empty scopePayloadA).2) ∧
      (process World.empty scopePayloadA).2.get_nba rec.id = some rec ∧
      (process World.empty scopePayloadA).2.upsert_from_calculation_event
          scopePayloadA.event_id scopePayloadA.nba_definition_id
          scopePayloadA.enterprise_number scopePayloadA.account_id
          scopePayloadA.contact_id scopePayloadA.context
        = (some rec, (process World.empty scopePayloadA).2) :=
  idempotent_event_creation World.empty scopePayloadA
    (by constructor <;> simp [World.empty]) (by decide) (by decide) (by decide)

/-- C5: a first-sight event with `create_nba = false` and a non-empty
deactivation list sets `active := false` on exactly the listed records
that exist and are active (missing and already-inactive ids are
silently skipped, duplicate ids are harmless), creates no record,
touches neither the id association nor the event log, marks the event
processed, and answers `deactivated_only`. -/
theorem deactivate_only_event (w : World) (p : CalcPayload)
    (hnd : (w.nbas.map (fun r => r.id)).Nodup)
    (hdup : w.is_processed p.event_id = false)
    (hcn : p.create_nba = false)
    (hne : p.deactivate_nba_ids ≠ []) :
    process w p = (⟨.deactivated_only, none⟩,
      { w with nbas := (w.nbas.map (dIf p.deactivate_nba_ids ⟨w.clock, some 0⟩)),
               clock := w.clock + 1,
               processed := w.processed ++ [p.event_id] }) ∧
    (process w p).2.nbas.length = w.nbas.length ∧
    (process w p).2.event_to_nba_id = w.event_to_nba_id ∧
    (process w p).2.events = w.events := by
  have hmain : process w p = (⟨.deactivated_only, none⟩,
      { w with nbas := (w.nbas.map (dIf p.deactivate_nba_ids ⟨w.clock, some 0⟩)),
               clock := w.clock + 1,
               processed := w.processed ++ [p.event_id] }) := by
    unfold process
    rw [if_neg (by simp [hdup])]
    dsimp only
    rw [if_pos (show ¬ p.create_nba = true by simp [hcn])]
    rw [if_neg (show ¬ p.deactivate_nba_ids.isEmpty = true by
      simp [List.isEmpty_iff, hne])]
    rw [deactivate_nbas_by_ids_spec w _ hnd]
    rw [mark_processed_of_not]
    exact hdup
  refine ⟨hmain, ?_, ?_, ?_⟩ <;> (rw [hmain]; try simp)

/-- Witness for C5: `deactPayload` (ids `[0, 5, 0]`, record 5 missing,
record 1 inactive) against the three-record store `wDeact`. -/
theorem deactivate_only_event_witness :
    process wDeact deactPayload = (⟨.deactivated_only, none⟩,
      { wDeact with
          nbas := (wDeact.nbas.map (dIf deactPayload.deactivate_nba_ids
            ⟨wDeact.clock, some 0⟩)),
          clock := wDeact.clock + 1,
          processed := wDeact.processed ++ [deactPayload.event_id] }) ∧
    (process wDeact deactPayload).2.nbas.length = wDeact.nbas.length ∧
    (process wDeact deactPayload).2.event_to_nba_id = wDeact.event_to_nba_id ∧
    (process wDeact deactPayload).2.events = wDeact.events :=
  deactivate_only_event wDeact deactPayload (by decide) (by decide) (by decide)
    (by decide)

/-- C3: accepting a status-`new` NBA twice (acting user with a
non-empty username, no pre-existing accepted human-action entry for
it) returns the same log entry — hence the same event id — both
times; the first call appends that single entry and the second call
changes nothing. -/
theorem action_idempotence (w : World) (nid : Nat) (r : NbaRecord)
    (aat aat2 : Option PyDateTime) (cm cm2 : Option String) (u : String)
    (hr : w.get_nba nid = some r) (hnew : r.status = NBA_STATUS_NEW)
    (hu : u ≠ "")
    (hnoprior : w.find_action_event nid NBA_STATUS_ACCEPTED = none) :
    ∃ e : NbaEventLogRecord,
      (register_action w nid NBA_STATUS_ACCEPTED aat cm u).1 = .ok e ∧
      (register_action w nid NBA_STATUS_ACCEPTED aat cm u).2.events
        = w.events ++ [e] ∧
      e.acted_by = some u ∧ e.nba_id = nid ∧ e.status = NBA_STATUS_ACCEPTED ∧
      register_action (register_action w nid NBA_STATUS_ACCEPTED aat cm u).2 nid
          NBA_STATUS_ACCEPTED aat2 cm2 u
        = (.ok e, (register_action w nid NBA_STATUS_ACCEPTED aat cm u).2) := by
  obtain ⟨e, hres, hnbaid, hstat, hact, hctx, hat, hev, he2n, hpr, ⟨t, hget⟩, hids⟩ :=
    register_action_new_spec w nid r NBA_STATUS_ACCEPTED aat cm u hr hnew (by decide)
  have hpe : (e.nba_id == nid && e.status == NBA_STATUS_ACCEPTED
      && pyTruthy e.acted_by) = true := by
    simp [hnbaid, hstat, hact, pyTruthy, hu]
  have hfind1 : (register_action w nid NBA_STATUS_ACCEPTED aat cm u).2.find_action_event
      nid NBA_STATUS_ACCEPTED = some e := by
    unfold World.find_action_event at hnoprior ⊢
    rw [hev, List.find?_append, hnoprior, Option.none_or]
    exact @List.find?_cons_of_pos _
      (fun x => x.nba_id == nid && x.status == NBA_STATUS_ACCEPTED
        && pyTruthy x.acted_by) e [] hpe
  refine ⟨e, hres, hev, hact, hnbaid, hstat, ?_⟩
  exact register_action_idem_found _ nid _ NBA_STATUS_ACCEPTED e aat2 cm2 u hget
    (Or.inl rfl) rfl hfind1 (by decide)

/-- Witness for C3: accepting the single `new` record of `wNew` twice
as user `"system"`. -/
theorem action_idempotence_witness :
    ∃ e : NbaEventLogRecord,
      (register_action wNew 0 NBA_STATUS_ACCEPTED none none "system").1 = .ok e ∧
      (register_action wNew 0 NBA_STATUS_ACCEPTED none none "system").2.events
        = wNew.events ++ [e] ∧
      e.acted_by = some "system" ∧ e.nba_id = 0 ∧ e.status = NBA_STATUS_ACCEPTED ∧
      register_action (register_action wNew 0 NBA_STATUS_ACCEPTED none none
          "system").2 0 NBA_STATUS_ACCEPTED none none "system"
        = (.ok e,
           (register_action wNew 0 NBA_STATUS_ACCEPTED none none "system").2) :=
  action_idempotence wNew 0 (sampleRec 0 true NBA_STATUS_NEW 0) none none none none
    "system" (by decide) (by decide) (by decide) (by decide)

/-- C4: once an NBA is accepted, a subsequent rejection attempt fails
with a conflict and has no effect: the state is returned unchanged and
the record's status remains accepted. -/
theorem conflicting_action_rejected (w : World) (nid : Nat) (r : NbaRecord)
    (aat aat2 : Option PyDateTime) (cm cm2 : Option String) (u u2 : String)
    (hr : w.get_nba nid = some r) (hnew : r.status = NBA_STATUS_NEW) :
    (∃ e : NbaEventLogRecord,
      (register_action w nid NBA_STATUS_ACCEPTED aat cm u).1 = .ok e) ∧
    register_action (register_action w nid NBA_STATUS_ACCEPTED aat cm u).2 nid
        NBA_STATUS_REJECTED aat2 cm2 u2
      = (.error .conflict, (register_action w nid NBA_STATUS_ACCEPTED aat cm u).2) ∧
    (((register_action w nid NBA_STATUS_ACCEPTED aat cm u).2.get_nba nid).map
        (fun x => x.status)) = some NBA_STATUS_ACCEPTED := by
  obtain ⟨e, hres, hnbaid, hstat, hact, hctx, hat, hev, he2n, hpr, ⟨t, hget⟩, hids⟩ :=
    register_action_new_spec w nid r NBA_STATUS_ACCEPTED aat cm u hr hnew (by decide)
  refine ⟨⟨e, hres⟩, ?_, ?_⟩
  · exact register_action_conflict_ne _ nid _ NBA_STATUS_REJECTED aat2 cm2 u2 hget
      (Or.inl rfl) (show NBA_STATUS_ACCEPTED ≠ NBA_STATUS_REJECTED by decide)
      (by decide)
  · rw [hget]
    rfl

/-- Witness for C4: accept then reject record 0 of `wNew`. -/
theorem conflicting_action_rejected_witness :
    (∃ e : NbaEventLogRecord,
      (register_action wNew 0 NBA_STATUS_ACCEPTED none none "system").1 = .ok e) ∧
    register_action (register_action wNew 0 NBA_STATUS_ACCEPTED none none
        "system").2 0 NBA_STATUS_REJECTED none none "system"
      = (.error .conflict,
         (register_action wNew 0 NBA_STATUS_ACCEPTED none none "system").2) ∧
    (((register_action wNew 0 NBA_STATUS_ACCEPTED none none "system").2.get_nba
        0).map (fun x => x.status)) = some NBA_STATUS_ACCEPTED :=
  conflicting_action_rejected wNew 0 (sampleRec 0 true NBA_STATUS_NEW 0) none none
    none none "system" "system" (by decide) (by decide)

/-- C7: acting on an id the NBA store does not hold fails with
not-found and leaves the state untouched — but status validation runs
first, so a malformed status on an unknown id fails with a validation
error instead. -/
theorem unknown_nba_action (w : World) (nid : Nat) (sv : String)
    (aat : Option PyDateTime) (cm : Option String) (u : String)
    (habs : w.get_nba nid = none) :
    (ACTION_STATUSES.contains sv = true →
      register_action w nid sv aat cm u = (.error .notFound, w)) ∧
    (ACTION_STATUSES.contains sv = false →
      register_action w nid sv aat cm u = (.error .validation, w)) := by
  constructor
  · intro hsv
    have hsv' : sv ∈ ACTION_STATUSES := by simpa using hsv
    unfold register_action
    rw [if_neg (by simp [hsv']), habs]
  · intro hsv
    have hsv' : sv ∉ ACTION_STATUSES := by simpa using hsv
    unfold register_action
    rw [if_pos (by simp [hsv'])]

/-- Witness for C7: id 7 is absent from `wNew`; a valid status gives
not-found, a malformed one gives the validation error. -/
theorem unknown_nba_action_witness :
    register_action wNew 7 NBA_STATUS_ACCEPTED none none "system"
      = (.error .notFound, wNew) ∧
    register_action wNew 7 "bogus" none none "system"
      = (.error .validation, wNew) :=
  ⟨(unknown_nba_action wNew 7 NBA_STATUS_ACCEPTED none none "system" (by decide)).1
     (by decide),
   (unknown_nba_action wNew 7 "bogus" none none "system" (by decide)).2 (by decide)⟩

/-- C9: when the record's status is already terminal, the same status
is requested again, and the event log holds no matching human-action
entry, the code raises a conflict and changes nothing (rather than
synthesizing a log entry). -/
theorem terminal_resubmit_without_log_conflicts (w : World) (nid : Nat)
    (r : NbaRecord) (sv : String) (aat : Option PyDateTime) (cm : Option String)
    (u : String)
    (hr : w.get_nba nid = some r) (hst : r.status = sv)
    (hsv : sv ∈ ACTION_STATUSES)
    (hfind : w.find_action_event nid sv = none) :
    register_action w nid sv aat cm u = (.error .conflict, w) := by
  have hterm : r.status = NBA_STATUS_ACCEPTED ∨ r.status = NBA_STATUS_REJECTED := by
    have : sv = NBA_STATUS_ACCEPTED ∨ sv = NBA_STATUS_REJECTED := by
      simpa [ACTION_STATUSES] using hsv
    rcases this with h | h
    · exact Or.inl (hst.trans h)
    · exact Or.inr (hst.trans h)
  exact register_action_conflict_nolog w nid r sv aat cm u hr hterm hst hfind hsv

/-- Witness for C9: `wAccepted` holds an accepted record with an empty
event log; resubmitting "accepted" conflicts. -/
theorem terminal_resubmit_without_log_conflicts_witness :
    register_action wAccepted 0 NBA_STATUS_ACCEPTED none none "system"
      = (.error .conflict, wAccepted) :=
  terminal_resubmit_without_log_conflicts wAccepted 0
    (sampleRec 0 true NBA_STATUS_ACCEPTED 0) NBA_STATUS_ACCEPTED none none "system"
    (by decide) (by decide) (by decide) (by decide)

/-- C8 (amended): on a status-`new` NBA with a valid action status,
the action timestamp defaults to the current UTC time when absent; a
supplied timezone-naive timestamp is stamped as UTC (tzoffset set to
UTC without shifting the wall-clock value); a supplied timezone-aware
timestamp is kept with its original offset (so the stored `action_at`
is always timezone-aware but not necessarily UTC); `acted_by` is the
acting user's username; and the context carries the comment exactly
when a non-empty comment was supplied. -/
theorem action_defaults_and_normalization (w : World) (nid : Nat) (r : NbaRecord)
    (sv : String) (aat : Option PyDateTime) (cm : Option String) (u : String)
    (hr : w.get_nba nid = some r) (hnew : r.status = NBA_STATUS_NEW)
    (hsv : ACTION_STATUSES.contains sv = true) :
    ∃ e : NbaEventLogRecord,
      (register_action w nid sv aat cm u).1 = .ok e ∧
      e.acted_by = some u ∧
      (aat = none → e.action_at = ⟨w.clock, some 0⟩) ∧
      (∀ dt : PyDateTime, aat = some dt → dt.tzoffset = none →
        e.action_at = ⟨dt.ticks, some 0⟩) ∧
      (∀ dt : PyDateTime, aat = some dt → dt.tzoffset ≠ none →
        e.action_at = dt) ∧
      e.action_at.tzoffset.isSome = true ∧
      (cm = none → e.context = .empty) ∧
      (cm = some "" → e.context = .empty) ∧
      (∀ s : String, cm = some s → s ≠ "" → e.context = .comment s) := by
  obtain ⟨e, hres, hnbaid, hstat, hact, hctx, hat, hrest⟩ :=
    register_action_new_spec w nid r sv aat cm u hr hnew hsv
  refine ⟨e, hres, hact, ?_, ?_, ?_, ?_, ?_, ?_, ?_⟩
  · rintro rfl
    exact hat
  · rintro dt rfl hnaive
    rw [hat]
    dsimp only
    rw [if_pos (by simp [hnaive])]
  · rintro dt rfl haware
    rw [hat]
    dsimp only
    rw [if_neg (by simp [haware])]
  · rw [hat]
    cases aat with
    | none => rfl
    | some dt =>
      dsimp only
      cases hdt : dt.tzoffset with
      | none => rw [if_pos (by simp [hdt])]; rfl
      | some o => rw [if_neg (by simp [hdt])]; simp [hdt]
  · rintro rfl
    exact hctx
  · rintro rfl
    rw [hctx]
    rfl
  · rintro s rfl hs
    rw [hctx]
    unfold commentContext
    dsimp only
    rw [if_neg (by simp [hs])]

/-- Witness for C8's amended theorem: a naive timestamp stamped UTC on
`wNew`'s record. -/
theorem action_defaults_and_normalization_witness :
    ∃ e : NbaEventLogRecord,
      (register_action wNew 0 NBA_STATUS_ACCEPTED (some ⟨7, none⟩) (some "ok")
        "system").1 = .ok e ∧
      e.acted_by = some "system" ∧
      (some (⟨7, none⟩ : PyDateTime) = none → e.action_at = ⟨wNew.clock, some 0⟩) ∧
      (∀ dt : PyDateTime, some (⟨7, none⟩ : PyDateTime) = some dt →
        dt.tzoffset = none → e.action_at = ⟨dt.ticks, some 0⟩) ∧
      (∀ dt : PyDateTime, some (⟨7, none⟩ : PyDateTime) = some dt →
        dt.tzoffset ≠ none → e.action_at = dt) ∧
      e.action_at.tzoffset.isSome = true ∧
      ((some "ok" : Option String) = none → e.context = .empty) ∧
      ((some "ok" : Option String) = some "" → e.context = .empty) ∧
      (∀ s : String, (some "ok" : Option String) = some s → s ≠ "" →
        e.context = .comment s) :=
  action_defaults_and_normalization wNew 0 (sampleRec 0 true NBA_STATUS_NEW 0)
    NBA_STATUS_ACCEPTED (some ⟨7, none⟩) (some "ok") "system" (by decide) (by decide)
    (by decide)

/-- Counterexample for C8 as stated: an aware non-UTC timestamp
(offset +120 minutes) is stored unchanged, so the returned entry's
`action_at` is not UTC; and a supplied empty-string comment yields an
empty context (Python truthiness), not a context carrying it. -/
theorem action_normalization_counterexample :
    ((register_action wNew 0 NBA_STATUS_ACCEPTED (some ⟨5, some 120⟩) none
        "system").1.map (fun e => e.action_at))
      = .ok ⟨5, some 120⟩ ∧
    (⟨5, some 120⟩ : PyDateTime).tzoffset ≠ some 0 ∧
    ((register_action wNew 0 NBA_STATUS_ACCEPTED none (some "") "system").1.map
        (fun e => e.context)) = .ok .empty := by
  refine ⟨?_, by decide, ?_⟩ <;> rfl

lemma listSortLe_trans : ∀ a b c : NbaRecord, listSortLe a b = true →
    listSortLe b c = true → listSortLe a c = true := by
  intro a b c h1 h2
  unfold listSortLe at *
  simp only [decide_eq_true_eq] at *
  omega

lemma listSortLe_total : ∀ a b : NbaRecord,
    (listSortLe a b || listSortLe b a) = true := by
  intro a b
  unfold listSortLe
  simpa using Int.le_total _ _

unseal List.merge List.mergeSort in
/-- C6: `list_nbas` returns exactly the active records matching the
supplied filters — a page that is a window `[offset, offset + limit)`
of a permutation of the filtered set sorted by `created_at`
descending — together with the total size of the whole filtered set;
and on ten matching active records, `limit = 3, offset = 3` yields the
4th through 6th newest with total 10. -/
theorem list_pagination_correctness :
    (∀ (w : World) (account_id enterprise_number status : Option String)
        (limit offset : Nat),
      (w.list_nbas account_id enterprise_number status limit offset).2
        = (w.nbas.filter (listPred account_id enterprise_number status)).length ∧
      ∃ sorted : List NbaRecord,
        sorted.Perm (w.nbas.filter (listPred account_id enterprise_number status)) ∧
        sorted.Pairwise (fun a b => b.created_at.utcValue ≤ a.created_at.utcValue) ∧
        (w.list_nbas account_id enterprise_number status limit offset).1
          = (sorted.drop offset).take limit ∧
        ((w.list_nbas account_id enterprise_number status limit offset).1).Pairwise
          (fun a b => b.created_at.utcValue ≤ a.created_at.utcValue)) ∧
    (wTen.list_nbas (some "acc-1") none (some NBA_STATUS_NEW) 3 3).1.map
        (fun r => r.id) = [6, 5, 4] ∧
    (wTen.list_nbas (some "acc-1") none (some NBA_STATUS_NEW) 3 3).1
      = [sampleRec 6 true NBA_STATUS_NEW 6, sampleRec 5 true NBA_STATUS_NEW 5,
         sampleRec 4 true NBA_STATUS_NEW 4] ∧
    (wTen.list_nbas (some "acc-1") none (some NBA_STATUS_NEW) 3 3).2 = 10 := by
  refine ⟨?_, by rfl, by rfl, by rfl⟩
  intro w account_id enterprise_number status limit offset
  have hsorted : ((w.nbas.filter (listPred account_id enterprise_number
      status)).mergeSort listSortLe).Pairwise
      (fun a b => b.created_at.utcValue ≤ a.created_at.utcValue) := by
    refine (List.sorted_mergeSort listSortLe_trans listSortLe_total
      (w.nbas.filter (listPred account_id enterprise_number status))).imp ?_
    intro a b h
    unfold listSortLe at h
    simpa using h
  refine ⟨List.length_mergeSort _,
    (w.nbas.filter (listPred account_id enterprise_number status)).mergeSort
      listSortLe,
    List.mergeSort_perm _ _, hsorted, rfl, ?_⟩
  exact List.Pairwise.sublist ((List.take_sublist _ _).trans (List.drop_sublist _ _))
    hsorted

/-- C10: the processed-event ledger is monotone — `mark_processed`
makes `is_processed` true, and it stays true across any further
`process` call, any serial sequence of them, and any `register_action`
call; and a payload whose event id is already processed is answered
with `duplicate_skipped` and leaves the state untouched. -/
theorem processed_ledger_monotone :
    (∀ (w : World) (e : String), (w.mark_processed e).is_processed e = true) ∧
    (∀ (w : World) (e : String) (p : CalcPayload),
      w.is_processed e = true → (process w p).2.is_processed e = true) ∧
    (∀ (w : World) (e : String) (ps : List CalcPayload),
      w.is_processed e = true → (processAll w ps).is_processed e = true) ∧
    (∀ (w : World) (e : String) (nid : Nat) (sv : String) (aat : Option PyDateTime)
        (c : Option String) (u : String),
      w.is_processed e = true →
        (register_action w nid sv aat c u).2.is_processed e = true) ∧
    (∀ (w : World) (p : CalcPayload),
      w.is_processed p.event_id = true →
        process w p = (⟨.duplicate_skipped, none⟩, w)) := by
  refine ⟨is_processed_mark_self,
    fun w e p h => process_processed_mono w p e h,
    fun w e ps h => processAll_processed_mono ps w e h,
    fun w e nid sv aat c u h => ?_,
    fun w p h => process_of_processed w p h⟩
  unfold World.is_processed
  rw [register_action_processed]
  exact h

/-- Witness for C10 at concrete inputs. -/
theorem processed_ledger_monotone_witness :
    (processAll (World.empty.mark_processed "evt-a") [scopePayloadB]).is_processed
        "evt-a" = true ∧
    process (World.empty.mark_processed "evt-a") scopePayloadA
      = (⟨.duplicate_skipped, none⟩, World.empty.mark_processed "evt-a") := by
  constructor
  · exact processed_ledger_monotone.2.2.1 _ "evt-a" [scopePayloadB]
      (processed_ledger_monotone.1 _ _)
  · exact processed_ledger_monotone.2.2.2.2 _ scopePayloadA (by decide)

end NbaBackend
